import Mathlib

/-
Verification of the action-rpg entity controllers (src/player.rs, src/bat.rs).

The game code works on 2D vectors; we embed them as pairs of real numbers.
The engine primitives used by the scripts (Vector2 arithmetic, move_toward,
try_normalize) are modelled by their exact mathematical semantics.
-/

noncomputable section

open scoped Classical

/-- Two-dimensional vector over the reals, embedding the engine Vector2. -/
@[ext]
structure Vec2 where
  x : ℝ
  y : ℝ

/-- The zero vector, Vector2::zero(). -/
def Vec2.zero : Vec2 := ⟨0, 0⟩

/-- Modelled from the spec: the unit down direction (positive y in screen
coordinates) Vector2::down(), used to initialise the player roll vector. -/
def Vec2.down : Vec2 := ⟨0, 1⟩

instance : Add Vec2 := ⟨fun a b => ⟨a.x + b.x, a.y + b.y⟩⟩

instance : Sub Vec2 := ⟨fun a b => ⟨a.x - b.x, a.y - b.y⟩⟩

instance : SMul ℝ Vec2 := ⟨fun c v => ⟨c * v.x, c * v.y⟩⟩

@[simp] lemma Vec2.add_x (a b : Vec2) : (a + b).x = a.x + b.x := rfl

@[simp] lemma Vec2.add_y (a b : Vec2) : (a + b).y = a.y + b.y := rfl

@[simp] lemma Vec2.sub_x (a b : Vec2) : (a - b).x = a.x - b.x := rfl

@[simp] lemma Vec2.sub_y (a b : Vec2) : (a - b).y = a.y - b.y := rfl

@[simp] lemma Vec2.smul_x (c : ℝ) (v : Vec2) : (c • v).x = c * v.x := rfl

@[simp] lemma Vec2.smul_y (c : ℝ) (v : Vec2) : (c • v).y = c * v.y := rfl

@[simp] lemma Vec2.zero_x : Vec2.zero.x = 0 := rfl

@[simp] lemma Vec2.zero_y : Vec2.zero.y = 0 := rfl

@[simp] lemma Vec2.down_x : Vec2.down.x = 0 := rfl

@[simp] lemma Vec2.down_y : Vec2.down.y = 1 := rfl

/-- Euclidean length of a vector. -/
def Vec2.length (v : Vec2) : ℝ := Real.sqrt (v.x ^ 2 + v.y ^ 2)

/-- Godot Vector2 move_toward: step of magnitude at most `d` from `v`
straight toward `to`, arriving exactly when `d` covers the distance.
This is the engine primitive called by player.rs and bat.rs. -/
def Vec2.moveTowards (v tgt : Vec2) (d : ℝ) : Vec2 :=
  if (tgt - v).length ≤ d then tgt else v + (d / (tgt - v).length) • (tgt - v)

/-- euclid Vector2 try_normalize: none when the length is zero, otherwise
the unit vector in the same direction. -/
def Vec2.tryNormalize (v : Vec2) : Option Vec2 :=
  if v.length = 0 then none else some ((1 / v.length) • v)

lemma Vec2.length_nonneg (v : Vec2) : 0 ≤ v.length := Real.sqrt_nonneg _

@[simp] lemma Vec2.length_zero : Vec2.zero.length = 0 := by
  simp [Vec2.length]

lemma Vec2.length_eq_zero (v : Vec2) : v.length = 0 ↔ v = Vec2.zero := by
  constructor
  · intro h
    have h0 : 0 ≤ v.x ^ 2 + v.y ^ 2 := by positivity
    have hs : v.x ^ 2 + v.y ^ 2 = 0 := (Real.sqrt_eq_zero h0).mp h
    have hx : v.x ^ 2 = 0 := by nlinarith [sq_nonneg v.x, sq_nonneg v.y]
    have hy : v.y ^ 2 = 0 := by nlinarith [sq_nonneg v.x, sq_nonneg v.y]
    ext
    · simpa using (pow_eq_zero_iff two_ne_zero).mp hx
    · simpa using (pow_eq_zero_iff two_ne_zero).mp hy
  · intro h
    rw [h]
    simp

lemma Vec2.sub_self (a : Vec2) : a - a = Vec2.zero := by
  ext <;> simp

lemma Vec2.sub_eq_zero (a b : Vec2) : a - b = Vec2.zero ↔ a = b := by
  constructor
  · intro h
    have hx := congrArg Vec2.x h
    have hy := congrArg Vec2.y h
    simp at hx hy
    ext
    · linarith
    · linarith
  · intro h
    rw [h]
    exact Vec2.sub_self b

lemma Vec2.length_smul (c : ℝ) (v : Vec2) : (c • v).length = |c| * v.length := by
  unfold Vec2.length
  simp only [Vec2.smul_x, Vec2.smul_y]
  rw [show (c * v.x) ^ 2 + (c * v.y) ^ 2 = c ^ 2 * (v.x ^ 2 + v.y ^ 2) by ring]
  rw [Real.sqrt_mul (sq_nonneg c), Real.sqrt_sq_eq_abs]

lemma Vec2.length_zero_sub (v : Vec2) : (Vec2.zero - v).length = v.length := by
  unfold Vec2.length
  simp only [Vec2.sub_x, Vec2.sub_y, Vec2.zero_x, Vec2.zero_y]
  rw [show (0 - v.x) ^ 2 + (0 - v.y) ^ 2 = v.x ^ 2 + v.y ^ 2 by ring]

/-- Distance law of the move_toward primitive: toward a fixed target the
distance decreases by exactly `min d (distance)`, written with `max`. -/
lemma Vec2.length_moveTowards (v tgt : Vec2) (d : ℝ) (hd : 0 ≤ d) :
    (tgt - v.moveTowards tgt d).length = max 0 ((tgt - v).length - d) := by
  unfold Vec2.moveTowards
  by_cases h : (tgt - v).length ≤ d
  · rw [if_pos h, Vec2.sub_self, Vec2.length_zero, eq_comm]
    exact max_eq_left (by linarith)
  · rw [if_neg h]
    push_neg at h
    have hlen : 0 < (tgt - v).length := lt_of_le_of_lt hd h
    have key : tgt - (v + (d / (tgt - v).length) • (tgt - v))
        = (1 - d / (tgt - v).length) • (tgt - v) := by
      ext <;> simp <;> ring
    rw [key, Vec2.length_smul]
    have h1 : d / (tgt - v).length < 1 := (div_lt_one hlen).mpr h
    rw [abs_of_nonneg (by linarith)]
    have h2 : (1 - d / (tgt - v).length) * (tgt - v).length = (tgt - v).length - d := by
      field_simp
    rw [h2, eq_comm]
    exact max_eq_right (by linarith)

lemma Vec2.moveTowards_of_le (v tgt : Vec2) {d : ℝ} (h : (tgt - v).length ≤ d) :
    v.moveTowards tgt d = tgt := by
  unfold Vec2.moveTowards
  rw [if_pos h]

lemma Vec2.tryNormalize_unit {v : Vec2} (h : v.length = 1) :
    Vec2.tryNormalize v = some v := by
  unfold Vec2.tryNormalize
  rw [if_neg (by rw [h]; norm_num)]
  congr 1
  ext <;> simp [h]

lemma Vec2.length_mk_unit (x y : ℝ) (h : x ^ 2 + y ^ 2 = 1) :
    (⟨x, y⟩ : Vec2).length = 1 := by
  unfold Vec2.length
  rw [show (⟨x, y⟩ : Vec2).x = x from rfl, show (⟨x, y⟩ : Vec2).y = y from rfl, h]
  exact Real.sqrt_one

/-- Movement constants from player.rs. -/
def ACCELERATION : ℝ := 500

/-- Maximum move speed from player.rs. -/
def MAX_SPEED : ℝ := 80

/-- Roll speed from player.rs. -/
def ROLL_SPEED : ℝ := 120

/-- Friction constant from player.rs. -/
def FRICTION : ℝ := 500

/-- Player state machine states from player.rs. -/
inductive State where
  | Move
  | Attack
  | Roll
  deriving DecidableEq

/-- Player fields from player.rs. -/
structure Player where
  velocity : Vec2
  state : State
  roll_vector : Vec2

/-- The sword hitbox field written by move_on_input. -/
structure SwordHitbox where
  knockback_vector : Vec2

/-- Player::new: default velocity and state, roll vector pointing down. -/
def Player.new : Player :=
  { velocity := Vec2.zero, state := State.Move, roll_vector := Vec2.down }

/-- The polled input of one frame: the four direction action strengths and the
two just-pressed action events. -/
structure InputFrame where
  right_strength : ℝ
  left_strength : ℝ
  down_strength : ℝ
  up_strength : ℝ
  attack_just_pressed : Bool
  roll_just_pressed : Bool

/-- Player::get_movement_input: raw axis vector from the four strengths,
normalized when possible. -/
def get_movement_input (right_strength left_strength down_strength up_strength : ℝ) : Vec2 :=
  let input_vector : Vec2 :=
    ⟨right_strength - left_strength, down_strength - up_strength⟩
  (input_vector.tryNormalize).getD input_vector

/-- Player::move_on_input: with nonzero input, cache the roll vector, write
the sword hitbox knockback vector and ease velocity toward input × MAX_SPEED;
with zero input ease velocity toward zero under FRICTION. -/
def move_on_input (p : Player) (input_vector : Vec2) (delta : ℝ)
    (sword_hitbox : SwordHitbox) : Player × SwordHitbox :=
  if input_vector ≠ Vec2.zero then
    ({ p with
        roll_vector := input_vector,
        velocity := p.velocity.moveTowards (MAX_SPEED • input_vector)
          (ACCELERATION * delta) },
     { sword_hitbox with knockback_vector := input_vector })
  else
    ({ p with velocity := p.velocity.moveTowards Vec2.zero (FRICTION * delta) },
     sword_hitbox)

/-- Player::roll: pin velocity to roll_vector × ROLL_SPEED. -/
def Player.roll (p : Player) : Player :=
  { p with velocity := ROLL_SPEED • p.roll_vector }

/-- Player::handle_attack_input: on a just-pressed attack event go to Attack. -/
def handle_attack_input (p : Player) (attack_just_pressed : Bool) : Player :=
  if attack_just_pressed then { p with state := State.Attack } else p

/-- Player::handle_roll_input: on a just-pressed roll event go to Roll. -/
def handle_roll_input (p : Player) (roll_just_pressed : Bool) : Player :=
  if roll_just_pressed then { p with state := State.Roll } else p

/-- Player::_process: in Move, poll input, move on it and handle the attack
then the roll event; in Attack only animate; in Roll pin the roll velocity.
Animation-tree calls are engine side effects without feedback into these
fields and are not modelled. -/
def Player.process (p : Player) (inp : InputFrame) (delta : ℝ)
    (sword_hitbox : SwordHitbox) : Player × SwordHitbox :=
  match p.state with
  | State.Move =>
    let input_vector := get_movement_input inp.right_strength inp.left_strength
      inp.down_strength inp.up_strength
    let ps := move_on_input p input_vector delta sword_hitbox
    (handle_roll_input (handle_attack_input ps.1 inp.attack_just_pressed)
      inp.roll_just_pressed, ps.2)
  | State.Attack => (p, sword_hitbox)
  | State.Roll => (p.roll, sword_hitbox)

/-- Player::_physics_process: in Move and Roll the velocity is replaced by the
engine move_and_slide result on the current velocity (the engine integration
is an oracle function argument); in Attack the velocity is zeroed and
move_and_slide is not invoked. -/
def Player.physicsProcess (p : Player) (move_and_slide : Vec2 → Vec2) : Player :=
  match p.state with
  | State.Move => { p with velocity := move_and_slide p.velocity }
  | State.Attack => { p with velocity := Vec2.zero }
  | State.Roll => { p with velocity := move_and_slide p.velocity }

/-- Player::attack_animation_finished. -/
def Player.attack_animation_finished (p : Player) : Player :=
  { p with state := State.Move }

/-- Player::roll_animation_finished. -/
def Player.roll_animation_finished (p : Player) : Player :=
  { p with velocity := (0.8 : ℝ) • p.velocity, state := State.Move }

/-- Bat fields from bat.rs. -/
structure Bat where
  knockback : Vec2

/-- Bat::new. -/
def Bat.new : Bat := { knockback := Vec2.zero }

/-- Bat::_process: the knockback eases toward zero at rate 200 per second. -/
def Bat.process (b : Bat) (delta : ℝ) : Bat :=
  { b with knockback := b.knockback.moveTowards Vec2.zero (200 * delta) }

/-- Bat::_physics_process: the knockback is replaced by the engine
move_and_slide result on the current knockback. -/
def Bat.physicsProcess (b : Bat) (move_and_slide : Vec2 → Vec2) : Bat :=
  { b with knockback := move_and_slide b.knockback }

/-- Bat::_on_Hurtbox_area_entered: the knockback becomes the other-entity
knockback vector times 120. -/
def Bat.onHurtboxAreaEntered (b : Bat) (player_knockback_vector : Vec2) : Bat :=
  { b with knockback := (120 : ℝ) • player_knockback_vector }

/-- A run of consecutive Bat::_process frames. -/
def Bat.processSeq (b : Bat) (ds : List ℝ) : Bat := ds.foldl Bat.process b

/-- The host-driven callbacks that can mutate a Player. -/
inductive Event where
  | frame (inp : InputFrame) (delta : ℝ) (sword_hitbox : SwordHitbox)
  | physics (move_and_slide : Vec2 → Vec2)
  | attackFinished
  | rollFinished

/-- Apply one host callback to a player. -/
def Player.stepEvent (p : Player) : Event → Player
  | Event.frame inp delta sh => (p.process inp delta sh).1
  | Event.physics mas => p.physicsProcess mas
  | Event.attackFinished => p.attack_animation_finished
  | Event.rollFinished => p.roll_animation_finished

/-- Apply a sequence of host callbacks to a player. -/
def Player.runEvents (p : Player) (es : List Event) : Player :=
  es.foldl Player.stepEvent p

/-- A run of consecutive frames with the same polled input. -/
def Player.moveRun (p : Player) (inp : InputFrame) (sword_hitbox : SwordHitbox) :
    List ℝ → Player × SwordHitbox
  | [] => (p, sword_hitbox)
  | d :: ds =>
    let ps := p.process inp d sword_hitbox
    Player.moveRun ps.1 inp ps.2 ds

lemma handle_attack_input_velocity (p : Player) (b : Bool) :
    (handle_attack_input p b).velocity = p.velocity := by
  cases b <;> simp [handle_attack_input]

lemma handle_attack_input_roll_vector (p : Player) (b : Bool) :
    (handle_attack_input p b).roll_vector = p.roll_vector := by
  cases b <;> simp [handle_attack_input]

lemma handle_attack_input_state (p : Player) (b : Bool) :
    (handle_attack_input p b).state = if b then State.Attack else p.state := by
  cases b <;> simp [handle_attack_input]

lemma handle_roll_input_velocity (p : Player) (b : Bool) :
    (handle_roll_input p b).velocity = p.velocity := by
  cases b <;> simp [handle_roll_input]

lemma handle_roll_input_roll_vector (p : Player) (b : Bool) :
    (handle_roll_input p b).roll_vector = p.roll_vector := by
  cases b <;> simp [handle_roll_input]

lemma handle_roll_input_state (p : Player) (b : Bool) :
    (handle_roll_input p b).state = if b then State.Roll else p.state := by
  cases b <;> simp [handle_roll_input]

lemma move_on_input_velocity (p : Player) (iv : Vec2) (delta : ℝ)
    (sh : SwordHitbox) :
    ((move_on_input p iv delta sh).1).velocity =
      if iv = Vec2.zero then p.velocity.moveTowards Vec2.zero (FRICTION * delta)
      else p.velocity.moveTowards (MAX_SPEED • iv) (ACCELERATION * delta) := by
  by_cases h : iv = Vec2.zero <;> simp [move_on_input, h]

lemma move_on_input_state (p : Player) (iv : Vec2) (delta : ℝ)
    (sh : SwordHitbox) :
    ((move_on_input p iv delta sh).1).state = p.state := by
  by_cases h : iv = Vec2.zero <;> simp [move_on_input, h]

lemma move_on_input_roll_vector (p : Player) (iv : Vec2) (delta : ℝ)
    (sh : SwordHitbox) :
    ((move_on_input p iv delta sh).1).roll_vector =
      if iv = Vec2.zero then p.roll_vector else iv := by
  by_cases h : iv = Vec2.zero <;> simp [move_on_input, h]

/-- In the Move state, _process runs move_on_input and then the two input
handlers, which do not touch the velocity. -/
lemma process_move_velocity (p : Player) (inp : InputFrame) (delta : ℝ)
    (sh : SwordHitbox) (h : p.state = State.Move) :
    ((p.process inp delta sh).1).velocity =
      ((move_on_input p (get_movement_input inp.right_strength inp.left_strength
        inp.down_strength inp.up_strength) delta sh).1).velocity := by
  obtain ⟨v, s, rv⟩ := p
  cases s
  · simp [Player.process, handle_roll_input_velocity, handle_attack_input_velocity]
  · exact absurd h (by simp [Player.state])
  · exact absurd h (by simp [Player.state])

lemma process_move_roll_vector (p : Player) (inp : InputFrame) (delta : ℝ)
    (sh : SwordHitbox) (h : p.state = State.Move) :
    ((p.process inp delta sh).1).roll_vector =
      ((move_on_input p (get_movement_input inp.right_strength inp.left_strength
        inp.down_strength inp.up_strength) delta sh).1).roll_vector := by
  obtain ⟨v, s, rv⟩ := p
  cases s
  · simp [Player.process, handle_roll_input_roll_vector, handle_attack_input_roll_vector]
  · exact absurd h (by simp [Player.state])
  · exact absurd h (by simp [Player.state])

/-- State characterization of one _process frame. -/
lemma process_state (p : Player) (inp : InputFrame) (delta : ℝ)
    (sh : SwordHitbox) :
    ((p.process inp delta sh).1).state =
      match p.state with
      | State.Move =>
        if inp.roll_just_pressed then State.Roll
        else if inp.attack_just_pressed then State.Attack
        else State.Move
      | s => s := by
  obtain ⟨v, s, rv⟩ := p
  cases s
  · simp [Player.process, handle_roll_input_state, handle_attack_input_state,
      move_on_input_state]
  · rfl
  · rfl

lemma process_attack_eq (p : Player) (inp : InputFrame) (delta : ℝ)
    (sh : SwordHitbox) (h : p.state = State.Attack) :
    p.process inp delta sh = (p, sh) := by
  obtain ⟨v, s, rv⟩ := p
  cases s
  · exact absurd h (by simp [Player.state])
  · rfl
  · exact absurd h (by simp [Player.state])

lemma process_roll_eq (p : Player) (inp : InputFrame) (delta : ℝ)
    (sh : SwordHitbox) (h : p.state = State.Roll) :
    p.process inp delta sh = (p.roll, sh) := by
  obtain ⟨v, s, rv⟩ := p
  cases s
  · exact absurd h (by simp [Player.state])
  · exact absurd h (by simp [Player.state])
  · rfl

lemma get_movement_input_eq (r l d u : ℝ) :
    get_movement_input r l d u =
      ((⟨r - l, d - u⟩ : Vec2).tryNormalize).getD ⟨r - l, d - u⟩ := rfl

/-- The polled movement input is the zero vector or a unit vector. -/
lemma get_movement_input_zero_or_unit (r l d u : ℝ) :
    get_movement_input r l d u = Vec2.zero ∨
      (get_movement_input r l d u).length = 1 := by
  rw [get_movement_input_eq]
  unfold Vec2.tryNormalize
  by_cases h : (⟨r - l, d - u⟩ : Vec2).length = 0
  · left
    rw [if_pos h]
    simpa using (Vec2.length_eq_zero _).mp h
  · right
    rw [if_neg h]
    have hpos : 0 < (⟨r - l, d - u⟩ : Vec2).length :=
      lt_of_le_of_ne (Vec2.length_nonneg _) (Ne.symm h)
    simp only [Option.getD_some]
    rw [Vec2.length_smul, abs_of_pos (by positivity), one_div,
      inv_mul_cancel₀ h]

lemma get_movement_input_of_unit (r l d u : ℝ)
    (h : (⟨r - l, d - u⟩ : Vec2).length = 1) :
    get_movement_input r l d u = ⟨r - l, d - u⟩ := by
  rw [get_movement_input_eq, Vec2.tryNormalize_unit h, Option.getD_some]

/-- Exactly one of the four direction strengths is 1, the rest 0. -/
def singleAxisInput (inp : InputFrame) : Prop :=
  (inp.right_strength = 1 ∧ inp.left_strength = 0 ∧ inp.down_strength = 0 ∧
    inp.up_strength = 0) ∨
  (inp.right_strength = 0 ∧ inp.left_strength = 1 ∧ inp.down_strength = 0 ∧
    inp.up_strength = 0) ∨
  (inp.right_strength = 0 ∧ inp.left_strength = 0 ∧ inp.down_strength = 1 ∧
    inp.up_strength = 0) ∨
  (inp.right_strength = 0 ∧ inp.left_strength = 0 ∧ inp.down_strength = 0 ∧
    inp.up_strength = 1)

lemma singleAxis_input_vector (inp : InputFrame) (h : singleAxisInput inp) :
    get_movement_input inp.right_strength inp.left_strength inp.down_strength
        inp.up_strength = ⟨1, 0⟩ ∨
      get_movement_input inp.right_strength inp.left_strength inp.down_strength
        inp.up_strength = ⟨-1, 0⟩ ∨
      get_movement_input inp.right_strength inp.left_strength inp.down_strength
        inp.up_strength = ⟨0, 1⟩ ∨
      get_movement_input inp.right_strength inp.left_strength inp.down_strength
        inp.up_strength = ⟨0, -1⟩ := by
  rcases h with ⟨h1, h2, h3, h4⟩ | ⟨h1, h2, h3, h4⟩ | ⟨h1, h2, h3, h4⟩ | ⟨h1, h2, h3, h4⟩ <;>
    rw [h1, h2, h3, h4]
  · left
    exact get_movement_input_of_unit 1 0 0 0
      (by rw [show ((⟨1 - 0, 0 - 0⟩ : Vec2)) = ⟨1, 0⟩ by ext <;> norm_num]
          exact Vec2.length_mk_unit 1 0 (by norm_num)) |>.trans
      (by ext <;> norm_num)
  · right; left
    exact get_movement_input_of_unit 0 1 0 0
      (by rw [show ((⟨0 - 1, 0 - 0⟩ : Vec2)) = ⟨-1, 0⟩ by ext <;> norm_num]
          exact Vec2.length_mk_unit (-1) 0 (by norm_num)) |>.trans
      (by ext <;> norm_num)
  · right; right; left
    exact get_movement_input_of_unit 0 0 1 0
      (by rw [show ((⟨0 - 0, 1 - 0⟩ : Vec2)) = ⟨0, 1⟩ by ext <;> norm_num]
          exact Vec2.length_mk_unit 0 1 (by norm_num)) |>.trans
      (by ext <;> norm_num)
  · right; right; right
    exact get_movement_input_of_unit 0 0 0 1
      (by rw [show ((⟨0 - 0, 0 - 1⟩ : Vec2)) = ⟨0, -1⟩ by ext <;> norm_num]
          exact Vec2.length_mk_unit 0 (-1) (by norm_num)) |>.trans
      (by ext <;> norm_num)

lemma unit_ne_zero {v : Vec2} (h : v.length = 1) : v ≠ Vec2.zero := by
  intro h0
  rw [h0, Vec2.length_zero] at h
  norm_num at h

lemma singleAxis_input_ne_zero (inp : InputFrame) (h : singleAxisInput inp) :
    get_movement_input inp.right_strength inp.left_strength inp.down_strength
      inp.up_strength ≠ Vec2.zero := by
  rcases singleAxis_input_vector inp h with h' | h' | h' | h' <;> rw [h'] <;>
    exact unit_ne_zero (Vec2.length_mk_unit _ _ (by norm_num))

lemma max_zero_sub_sub (a s t : ℝ) (ht : 0 ≤ t) :
    max 0 (max 0 (a - s) - t) = max 0 (a - (s + t)) := by
  rcases le_total (a - s) 0 with h | h
  · rw [max_eq_left h, zero_sub, max_eq_left (by linarith), eq_comm]
    exact max_eq_left (by linarith)
  · rw [max_eq_right h, show a - s - t = a - (s + t) by ring]

/-- With no just-pressed attack or roll event and Move state, _process keeps
the Move state. -/
lemma process_state_move (p : Player) (inp : InputFrame) (delta : ℝ)
    (sh : SwordHitbox) (hs : p.state = State.Move)
    (ha : inp.attack_just_pressed = false) (hr : inp.roll_just_pressed = false) :
    ((p.process inp delta sh).1).state = State.Move := by
  rw [process_state, hs, ha, hr]
  simp

/-- Distance law of a constant-input run of Move frames: the distance from the
velocity to the easing target input × MAX_SPEED shrinks by the accumulated
step budget ACCELERATION × Σ delta, clamped at zero. -/
lemma moveRun_dist (inp : InputFrame) (ds : List ℝ)
    (ha : inp.attack_just_pressed = false) (hr : inp.roll_just_pressed = false)
    (hiv : get_movement_input inp.right_strength inp.left_strength
      inp.down_strength inp.up_strength ≠ Vec2.zero)
    (hds : ∀ d ∈ ds, 0 ≤ d) :
    ∀ (p : Player) (sh : SwordHitbox), p.state = State.Move →
      ((MAX_SPEED • get_movement_input inp.right_strength inp.left_strength
          inp.down_strength inp.up_strength) -
        ((p.moveRun inp sh ds).1).velocity).length =
      max 0 (((MAX_SPEED • get_movement_input inp.right_strength
          inp.left_strength inp.down_strength inp.up_strength) -
        p.velocity).length - ACCELERATION * ds.sum) := by
  induction ds with
  | nil =>
    intro p sh hs
    simp only [Player.moveRun, List.sum_nil, mul_zero, sub_zero]
    exact (max_eq_right (Vec2.length_nonneg _)).symm
  | cons d tl ih =>
    intro p sh hs
    have hd : 0 ≤ d := hds d (by simp)
    have htl : ∀ x ∈ tl, 0 ≤ x := fun x hx => hds x (by simp [hx])
    have hrun : p.moveRun inp sh (d :: tl) =
        Player.moveRun (p.process inp d sh).1 inp (p.process inp d sh).2 tl := rfl
    rw [hrun, ih htl (p.process inp d sh).1 (p.process inp d sh).2
      (process_state_move p inp d sh hs ha hr)]
    rw [process_move_velocity p inp d sh hs, move_on_input_velocity, if_neg hiv]
    rw [Vec2.length_moveTowards p.velocity _ _
      (mul_nonneg (by norm_num [ACCELERATION]) hd)]
    rw [List.sum_cons, max_zero_sub_sub _ _ _
      (mul_nonneg (by norm_num [ACCELERATION]) (List.sum_nonneg htl))]
    rw [show ACCELERATION * d + ACCELERATION * tl.sum
      = ACCELERATION * (d + tl.sum) by ring]

lemma Vec2.length_mk (x y : ℝ) :
    (⟨x, y⟩ : Vec2).length = Real.sqrt (x ^ 2 + y ^ 2) := rfl

/-- One bat frame shrinks the knockback norm by the step 200 × delta,
clamped at zero. -/
lemma bat_process_length (b : Bat) (delta : ℝ) (hd : 0 ≤ delta) :
    ((b.process delta).knockback).length =
      max 0 (b.knockback.length - 200 * delta) := by
  have h := Vec2.length_moveTowards b.knockback Vec2.zero (200 * delta)
    (by linarith)
  rw [Vec2.length_zero_sub, Vec2.length_zero_sub] at h
  exact h

/-- A run of bat frames shrinks the knockback norm by the accumulated step
budget 200 × Σ delta, clamped at zero. -/
lemma bat_processSeq_length (ds : List ℝ) (hds : ∀ d ∈ ds, 0 ≤ d) :
    ∀ b : Bat, ((b.processSeq ds).knockback).length =
      max 0 (b.knockback.length - 200 * ds.sum) := by
  induction ds with
  | nil =>
    intro b
    simp only [Bat.processSeq, List.foldl_nil, List.sum_nil, mul_zero, sub_zero]
    exact (max_eq_right (Vec2.length_nonneg _)).symm
  | cons d tl ih =>
    intro b
    have hd : 0 ≤ d := hds d (by simp)
    have htl : ∀ x ∈ tl, 0 ≤ x := fun x hx => hds x (by simp [hx])
    have hrun : b.processSeq (d :: tl) = (b.process d).processSeq tl := rfl
    rw [hrun, ih htl (b.process d), bat_process_length b d hd, List.sum_cons,
      max_zero_sub_sub _ _ _
        (mul_nonneg (by norm_num) (List.sum_nonneg htl)),
      show (200:ℝ) * d + 200 * tl.sum = 200 * (d + tl.sum) by ring]

/-- Modelled from the spec: an exponential approach-rate easing step leaves,
after a frame of length `d` and rate constant `k`, the fraction
`exp (-(k * d))` of the offset from the velocity to the target. -/
def expApproachStep (v tgt v' : Vec2) (k d : ℝ) : Prop :=
  v' - tgt = Real.exp (-(k * d)) • (v - tgt)

lemma Vec2.length_x (x : ℝ) (hx : 0 ≤ x) : (⟨x, 0⟩ : Vec2).length = x := by
  rw [Vec2.length_mk, show x ^ 2 + 0 ^ 2 = x ^ 2 by ring, Real.sqrt_sq hx]

lemma get_movement_input_right : get_movement_input 1 0 0 0 = ⟨1, 0⟩ :=
  (get_movement_input_of_unit 1 0 0 0
    (by rw [show ((⟨1 - 0, 0 - 0⟩ : Vec2)) = ⟨1, 0⟩ by ext <;> norm_num]
        exact Vec2.length_mk_unit 1 0 (by norm_num))).trans
    (by ext <;> norm_num)

lemma get_movement_input_zero : get_movement_input 0 0 0 0 = Vec2.zero := by
  rw [get_movement_input_eq,
    show ((⟨0 - 0, 0 - 0⟩ : Vec2)) = Vec2.zero by ext <;> norm_num]
  unfold Vec2.tryNormalize
  rw [if_pos Vec2.length_zero, Option.getD_none]

/-- C3: the player state machine starts in Move; one frame of _process moves
Move to Roll on a roll event, else to Attack on an attack event, else stays,
and never changes the state in Attack or Roll; the physics tick never changes
the state; each animation-finished callback returns the state to Move. -/
theorem C3_state_machine :
    Player.new.state = State.Move ∧
    (∀ (p : Player) (inp : InputFrame) (delta : ℝ) (sh : SwordHitbox),
      ((p.process inp delta sh).1).state =
        if p.state = State.Move then
          (if inp.roll_just_pressed then State.Roll
           else if inp.attack_just_pressed then State.Attack
           else State.Move)
        else p.state) ∧
    (∀ (p : Player) (mas : Vec2 → Vec2), (p.physicsProcess mas).state = p.state) ∧
    (∀ p : Player, (p.attack_animation_finished).state = State.Move) ∧
    (∀ p : Player, (p.roll_animation_finished).state = State.Move) := by
  refine ⟨rfl, ?_, ?_, fun p => rfl, fun p => rfl⟩
  · intro p inp delta sh
    rw [process_state]
    obtain ⟨v, s, rv⟩ := p
    cases s
    · simp
    · simp [Player.state]
    · simp [Player.state]
  · intro p mas
    obtain ⟨v, s, rv⟩ := p
    cases s <;> rfl

/-- C4: roll_animation_finished scales the velocity by exactly 0.8, sets the
state to Move and leaves the remaining field (roll_vector) unchanged. -/
theorem C4_roll_finished (p : Player) :
    (p.roll_animation_finished).velocity = (0.8 : ℝ) • p.velocity ∧
    (p.roll_animation_finished).state = State.Move ∧
    (p.roll_animation_finished).roll_vector = p.roll_vector :=
  ⟨rfl, rfl, rfl⟩

/-- C5: the hurtbox collision callback sets the bat knockback to exactly the
knockback vector of the other entity times 120, whatever the previous value. -/
theorem C5_hurtbox_sets_knockback (b b' : Bat) (player_knockback_vector : Vec2) :
    (b.onHurtboxAreaEntered player_knockback_vector).knockback =
        (120 : ℝ) • player_knockback_vector ∧
    b.onHurtboxAreaEntered player_knockback_vector =
        b'.onHurtboxAreaEntered player_knockback_vector :=
  ⟨rfl, rfl⟩

/-- C7: a Move-state player at rest polling all-zero direction strengths keeps
a zero velocity, for every frame delta. -/
theorem C7_rest_zero_input (p : Player) (inp : InputFrame) (delta : ℝ)
    (sh : SwordHitbox) (hs : p.state = State.Move) (hv : p.velocity = Vec2.zero)
    (hr : inp.right_strength = 0) (hl : inp.left_strength = 0)
    (hd : inp.down_strength = 0) (hu : inp.up_strength = 0) :
    ((p.process inp delta sh).1).velocity = Vec2.zero := by
  rw [process_move_velocity p inp delta sh hs, move_on_input_velocity,
    hr, hl, hd, hu, get_movement_input_zero, if_pos rfl, hv]
  unfold Vec2.moveTowards
  by_cases h : (Vec2.zero - Vec2.zero).length ≤ FRICTION * delta
  · rw [if_pos h]
  · rw [if_neg h]
    ext <;> simp

/-- C7 witness at the concrete input used by the repository test test_move_nothing. -/
theorem C7_rest_zero_input_witness :
    ((Player.new.process ⟨0, 0, 0, 0, false, false⟩ (6 / 10) ⟨Vec2.zero⟩).1).velocity
      = Vec2.zero :=
  C7_rest_zero_input Player.new ⟨0, 0, 0, 0, false, false⟩ (6 / 10) ⟨Vec2.zero⟩
    rfl rfl rfl rfl rfl rfl

/-- C8: in Attack the physics tick zeroes the velocity and its result does not
depend on the engine move_and_slide oracle; in Move and Roll the velocity is
replaced by move_and_slide of the current velocity. -/
theorem C8_attack_freezes (p : Player) (mas mas' : Vec2 → Vec2)
    (h : p.state = State.Attack) :
    p.physicsProcess mas = { p with velocity := Vec2.zero } ∧
    p.physicsProcess mas = p.physicsProcess mas' ∧
    (∀ q : Player, q.state = State.Move ∨ q.state = State.Roll →
      q.physicsProcess mas = { q with velocity := mas q.velocity }) := by
  refine ⟨?_, ?_, ?_⟩
  · obtain ⟨v, s, rv⟩ := p
    cases s
    · exact absurd h (by simp [Player.state])
    · rfl
    · exact absurd h (by simp [Player.state])
  · obtain ⟨v, s, rv⟩ := p
    cases s
    · exact absurd h (by simp [Player.state])
    · rfl
    · exact absurd h (by simp [Player.state])
  · intro q hq
    obtain ⟨v, s, rv⟩ := q
    cases s
    · rfl
    · rcases hq with h' | h' <;> exact absurd h' (by simp [Player.state])
    · rfl

/-- C8 witness: a concrete attacking player does not move on the physics tick. -/
theorem C8_attack_freezes_witness :
    ((⟨Vec2.down, State.Attack, Vec2.down⟩ : Player).physicsProcess
        (fun v => v)).velocity = Vec2.zero := by
  have h := C8_attack_freezes ⟨Vec2.down, State.Attack, Vec2.down⟩
    (fun v => v) (fun _ => Vec2.zero) rfl
  rw [h.1]

/-- C10: when the attack and roll events fire in the same Move frame, the roll
handler runs second and wins: the resulting state is Roll. -/
theorem C10_roll_overrides_attack (p : Player) (inp : InputFrame) (delta : ℝ)
    (sh : SwordHitbox) (hs : p.state = State.Move)
    (ha : inp.attack_just_pressed = true) (hr : inp.roll_just_pressed = true) :
    ((p.process inp delta sh).1).state = State.Roll := by
  rw [process_state]
  simp [hs, hr]

/-- C10 witness at a concrete frame with both events pressed. -/
theorem C10_roll_overrides_attack_witness :
    ((Player.new.process ⟨0, 0, 0, 0, true, true⟩ 1 ⟨Vec2.zero⟩).1).state
      = State.Roll :=
  C10_roll_overrides_attack Player.new ⟨0, 0, 0, 0, true, true⟩ 1 ⟨Vec2.zero⟩
    rfl rfl rfl

/-- C2: absent hurtbox collisions, each bat frame shrinks the knockback norm
by exactly min (200 × delta) (norm) — so the norm never increases, strictly
decreases while the knockback is nonzero, becomes exactly zero once the step
covers it, and over any run of positive-delta frames equals the initial norm
minus 200 × Σ delta clamped at zero. -/
theorem C2_knockback_decay (b : Bat) (delta : ℝ) (ds : List ℝ)
    (hd : 0 < delta) (hds : ∀ d ∈ ds, 0 < d) :
    ((b.process delta).knockback).length =
        max 0 (b.knockback.length - 200 * delta) ∧
    ((b.process delta).knockback).length ≤ b.knockback.length ∧
    (b.knockback ≠ Vec2.zero →
      ((b.process delta).knockback).length < b.knockback.length) ∧
    (b.knockback.length ≤ 200 * delta →
      (b.process delta).knockback = Vec2.zero) ∧
    ((b.processSeq ds).knockback).length =
        max 0 (b.knockback.length - 200 * ds.sum) := by
  have heq := bat_process_length b delta hd.le
  refine ⟨heq, ?_, ?_, ?_, ?_⟩
  · rw [heq]
    exact max_le (Vec2.length_nonneg _)
      (by linarith [Vec2.length_nonneg b.knockback])
  · intro hne
    have hpos : 0 < b.knockback.length :=
      lt_of_le_of_ne (Vec2.length_nonneg _)
        (fun h0 => hne ((Vec2.length_eq_zero _).mp h0.symm))
    rw [heq]
    exact max_lt hpos (by linarith)
  · intro hle
    show b.knockback.moveTowards Vec2.zero (200 * delta) = Vec2.zero
    apply Vec2.moveTowards_of_le
    rw [Vec2.length_zero_sub]
    exact hle
  · exact bat_processSeq_length ds (fun d hdm => (hds d hdm).le) b

/-- C2 witness at a concrete bat with knockback (3, 4) and frame 1/100. -/
theorem C2_knockback_decay_witness :
    (((⟨⟨3, 4⟩⟩ : Bat).process (1 / 100)).knockback).length =
        max 0 ((⟨⟨3, 4⟩⟩ : Bat).knockback.length - 200 * (1 / 100)) ∧
    (((⟨⟨3, 4⟩⟩ : Bat).process (1 / 100)).knockback).length ≤
        (⟨⟨3, 4⟩⟩ : Bat).knockback.length ∧
    ((⟨⟨3, 4⟩⟩ : Bat).knockback ≠ Vec2.zero →
      (((⟨⟨3, 4⟩⟩ : Bat).process (1 / 100)).knockback).length <
        (⟨⟨3, 4⟩⟩ : Bat).knockback.length) ∧
    ((⟨⟨3, 4⟩⟩ : Bat).knockback.length ≤ 200 * (1 / 100) →
      ((⟨⟨3, 4⟩⟩ : Bat).process (1 / 100)).knockback = Vec2.zero) ∧
    (((⟨⟨3, 4⟩⟩ : Bat).processSeq [1]).knockback).length =
        max 0 ((⟨⟨3, 4⟩⟩ : Bat).knockback.length - 200 * ([(1 : ℝ)]).sum) :=
  C2_knockback_decay ⟨⟨3, 4⟩⟩ (1 / 100) [1] (by norm_num)
    (by intro d hdm
        rw [List.mem_singleton] at hdm
        rw [hdm]
        norm_num)

/-- C1 counterexample: from rest under full right input with delta 1 the code
reaches the target velocity exactly in one frame, which no exponential
approach-rate easing (leaving the positive fraction exp (-(k * d)) of the
offset) can do: the Move update is not an exponential approach-rate formula. -/
theorem C1_counterexample :
    get_movement_input 1 0 0 0 ≠ Vec2.zero ∧
    ((move_on_input Player.new (get_movement_input 1 0 0 0) 1
        ⟨Vec2.zero⟩).1).velocity = MAX_SPEED • get_movement_input 1 0 0 0 ∧
    Player.new.velocity ≠ MAX_SPEED • get_movement_input 1 0 0 0 ∧
    ¬ ∃ k : ℝ, expApproachStep Player.new.velocity
        (MAX_SPEED • get_movement_input 1 0 0 0)
        (((move_on_input Player.new (get_movement_input 1 0 0 0) 1
          ⟨Vec2.zero⟩).1).velocity) k 1 := by
  have hiv : get_movement_input 1 0 0 0 = ⟨1, 0⟩ := get_movement_input_right
  have hne : get_movement_input 1 0 0 0 ≠ Vec2.zero := by
    rw [hiv]
    exact unit_ne_zero (Vec2.length_mk_unit 1 0 (by norm_num))
  have htgt : MAX_SPEED • get_movement_input 1 0 0 0 = ⟨80, 0⟩ := by
    rw [hiv]
    ext <;> simp [MAX_SPEED]
  have hvel : ((move_on_input Player.new (get_movement_input 1 0 0 0) 1
      ⟨Vec2.zero⟩).1).velocity = ⟨80, 0⟩ := by
    rw [move_on_input_velocity, if_neg hne, htgt]
    show Vec2.zero.moveTowards ⟨80, 0⟩ (ACCELERATION * 1) = ⟨80, 0⟩
    apply Vec2.moveTowards_of_le
    rw [show ((⟨80, 0⟩ : Vec2) - Vec2.zero) = ⟨80, 0⟩ by ext <;> simp,
      Vec2.length_x 80 (by norm_num)]
    norm_num [ACCELERATION]
  refine ⟨hne, by rw [hvel, htgt], ?_, ?_⟩
  · rw [htgt]
    intro h0
    have hx := congrArg Vec2.x h0
    simp [Player.new] at hx
  · rintro ⟨k, hk⟩
    unfold expApproachStep at hk
    rw [hvel, htgt, show Player.new.velocity = Vec2.zero from rfl] at hk
    have hx := congrArg Vec2.x hk
    simp at hx

/-- C1 as amended: in a Move frame with positive delta, the velocity update is
the clamped constant-rate move-towards step — toward input × MAX_SPEED with
step ACCELERATION × delta on nonzero input, toward zero with step
FRICTION × delta on zero input — shrinking the distance to the target by
exactly min (step) (distance). -/
theorem C1_move_easing_clamped (p : Player) (inp : InputFrame) (delta : ℝ)
    (sh : SwordHitbox) (hs : p.state = State.Move) (hd : 0 < delta) :
    (get_movement_input inp.right_strength inp.left_strength inp.down_strength
        inp.up_strength ≠ Vec2.zero →
      ((p.process inp delta sh).1).velocity =
          p.velocity.moveTowards
            (MAX_SPEED • get_movement_input inp.right_strength inp.left_strength
              inp.down_strength inp.up_strength) (ACCELERATION * delta) ∧
      ((MAX_SPEED • get_movement_input inp.right_strength inp.left_strength
          inp.down_strength inp.up_strength) -
            ((p.process inp delta sh).1).velocity).length =
        max 0 (((MAX_SPEED • get_movement_input inp.right_strength
            inp.left_strength inp.down_strength inp.up_strength) -
              p.velocity).length - ACCELERATION * delta)) ∧
    (get_movement_input inp.right_strength inp.left_strength inp.down_strength
        inp.up_strength = Vec2.zero →
      ((p.process inp delta sh).1).velocity =
          p.velocity.moveTowards Vec2.zero (FRICTION * delta) ∧
      (((p.process inp delta sh).1).velocity).length =
        max 0 (p.velocity.length - FRICTION * delta)) := by
  constructor
  · intro hne
    have h1 : ((p.process inp delta sh).1).velocity =
        p.velocity.moveTowards
          (MAX_SPEED • get_movement_input inp.right_strength inp.left_strength
            inp.down_strength inp.up_strength) (ACCELERATION * delta) := by
      rw [process_move_velocity p inp delta sh hs, move_on_input_velocity,
        if_neg hne]
    refine ⟨h1, ?_⟩
    rw [h1]
    exact Vec2.length_moveTowards _ _ _
      (mul_nonneg (by norm_num [ACCELERATION]) hd.le)
  · intro hz
    have h1 : ((p.process inp delta sh).1).velocity =
        p.velocity.moveTowards Vec2.zero (FRICTION * delta) := by
      rw [process_move_velocity p inp delta sh hs, move_on_input_velocity,
        if_pos hz]
    refine ⟨h1, ?_⟩
    rw [h1]
    have h2 := Vec2.length_moveTowards p.velocity Vec2.zero (FRICTION * delta)
      (mul_nonneg (by norm_num [FRICTION]) hd.le)
    rw [Vec2.length_zero_sub, Vec2.length_zero_sub] at h2
    exact h2

/-- C1 witness: the amended law applied at rest under full right input. -/
theorem C1_move_easing_clamped_witness :
    ((Player.new.process ⟨1, 0, 0, 0, false, false⟩ 1 ⟨Vec2.zero⟩).1).velocity
      = Player.new.velocity.moveTowards
          (MAX_SPEED • get_movement_input 1 0 0 0) (ACCELERATION * 1) := by
  have h := C1_move_easing_clamped Player.new ⟨1, 0, 0, 0, false, false⟩ 1
    ⟨Vec2.zero⟩ rfl one_pos
  have hne : get_movement_input 1 0 0 0 ≠ Vec2.zero := by
    rw [get_movement_input_right]
    exact unit_ne_zero (Vec2.length_mk_unit 1 0 (by norm_num))
  exact (h.1 hne).1

/-- C6 as amended: under a constant single-axis input and positive deltas the
input vector is a signed axis unit vector and the distance from the velocity
to input × MAX_SPEED shrinks to max 0 (initial − ACCELERATION × Σ delta); the
velocity reaches the target exactly once the accumulated budget covers the
initial distance, and with any constant positive delta this happens after
finitely many frames. -/
theorem C6_axis_convergence (p : Player) (inp : InputFrame) (sh : SwordHitbox)
    (ds : List ℝ) (hs : p.state = State.Move) (haxis : singleAxisInput inp)
    (ha : inp.attack_just_pressed = false) (hr : inp.roll_just_pressed = false)
    (hds : ∀ d ∈ ds, 0 < d) :
    (get_movement_input inp.right_strength inp.left_strength inp.down_strength
        inp.up_strength = ⟨1, 0⟩ ∨
      get_movement_input inp.right_strength inp.left_strength inp.down_strength
        inp.up_strength = ⟨-1, 0⟩ ∨
      get_movement_input inp.right_strength inp.left_strength inp.down_strength
        inp.up_strength = ⟨0, 1⟩ ∨
      get_movement_input inp.right_strength inp.left_strength inp.down_strength
        inp.up_strength = ⟨0, -1⟩) ∧
    ((MAX_SPEED • get_movement_input inp.right_strength inp.left_strength
        inp.down_strength inp.up_strength) -
          ((p.moveRun inp sh ds).1).velocity).length =
      max 0 (((MAX_SPEED • get_movement_input inp.right_strength
          inp.left_strength inp.down_strength inp.up_strength) -
            p.velocity).length - ACCELERATION * ds.sum) ∧
    (((MAX_SPEED • get_movement_input inp.right_strength inp.left_strength
        inp.down_strength inp.up_strength) - p.velocity).length ≤
          ACCELERATION * ds.sum →
      ((p.moveRun inp sh ds).1).velocity =
        MAX_SPEED • get_movement_input inp.right_strength inp.left_strength
          inp.down_strength inp.up_strength) ∧
    (∀ delta : ℝ, 0 < delta → ∃ n : ℕ,
      ((p.moveRun inp sh (List.replicate n delta)).1).velocity =
        MAX_SPEED • get_movement_input inp.right_strength inp.left_strength
          inp.down_strength inp.up_strength) := by
  have hiv := singleAxis_input_ne_zero inp haxis
  have hlaw := moveRun_dist inp ds ha hr hiv (fun d hdm => (hds d hdm).le) p sh hs
  refine ⟨singleAxis_input_vector inp haxis, hlaw, ?_, ?_⟩
  · intro hreach
    have h0 : ((MAX_SPEED • get_movement_input inp.right_strength
        inp.left_strength inp.down_strength inp.up_strength) -
          ((p.moveRun inp sh ds).1).velocity).length = 0 := by
      rw [hlaw]
      exact max_eq_left (by linarith)
    exact ((Vec2.sub_eq_zero _ _).mp ((Vec2.length_eq_zero _).mp h0)).symm
  · intro delta hdelta
    obtain ⟨n, hn⟩ := exists_nat_ge
      (((MAX_SPEED • get_movement_input inp.right_strength inp.left_strength
        inp.down_strength inp.up_strength) - p.velocity).length /
        (ACCELERATION * delta))
    have hstep : 0 < ACCELERATION * delta := by
      have h500 : (0 : ℝ) < 500 * delta := by linarith
      simpa [ACCELERATION] using h500
    have hlaw' := moveRun_dist inp (List.replicate n delta) ha hr hiv
      (fun d hdm => by rw [List.eq_of_mem_replicate hdm]; exact hdelta.le) p sh hs
    have hsum : (List.replicate n delta).sum = (n : ℝ) * delta := by
      rw [List.sum_replicate, nsmul_eq_mul]
    have hreach : ((MAX_SPEED • get_movement_input inp.right_strength
        inp.left_strength inp.down_strength inp.up_strength) -
          p.velocity).length ≤ ACCELERATION * (List.replicate n delta).sum := by
      rw [hsum]
      calc ((MAX_SPEED • get_movement_input inp.right_strength
            inp.left_strength inp.down_strength inp.up_strength) -
              p.velocity).length ≤ (n : ℝ) * (ACCELERATION * delta) :=
            (div_le_iff₀ hstep).mp hn
        _ = ACCELERATION * ((n : ℝ) * delta) := by ring
    refine ⟨n, ?_⟩
    have h0 : ((MAX_SPEED • get_movement_input inp.right_strength
        inp.left_strength inp.down_strength inp.up_strength) -
          ((p.moveRun inp sh (List.replicate n delta)).1).velocity).length = 0 := by
      rw [hlaw']
      exact max_eq_left (by linarith)
    exact ((Vec2.sub_eq_zero _ _).mp ((Vec2.length_eq_zero _).mp h0)).symm

/-- C6 witness: from rest under right input, one frame of 0.2 s suffices. -/
theorem C6_axis_convergence_witness :
    ((Player.new.moveRun ⟨1, 0, 0, 0, false, false⟩ ⟨Vec2.zero⟩ [2 / 10]).1).velocity
      = MAX_SPEED • get_movement_input 1 0 0 0 := by
  have h := C6_axis_convergence Player.new ⟨1, 0, 0, 0, false, false⟩
    ⟨Vec2.zero⟩ [2 / 10] rfl (Or.inl ⟨rfl, rfl, rfl, rfl⟩) rfl rfl
    (by intro d hdm
        rw [List.mem_singleton] at hdm
        rw [hdm]
        norm_num)
  apply h.2.2.1
  have htgt : (MAX_SPEED • get_movement_input 1 0 0 0) - Player.new.velocity
      = ⟨80, 0⟩ := by
    rw [get_movement_input_right]
    ext <;> simp [MAX_SPEED, Player.new, Vec2.zero]
  rw [htgt, Vec2.length_x 80 (by norm_num)]
  norm_num [ACCELERATION]

/-- The constant full-right input frame used in the C6 counterexample. -/
def c6Input : InputFrame := ⟨1, 0, 0, 0, false, false⟩

/-- A summable sequence of positive frame deltas: 1/100, 1/200, 1/400, … -/
def c6Delta (i : ℕ) : ℝ := (1 / 100) * (1 / 2) ^ i

/-- The player run that feeds frame n the delta c6Delta n under c6Input. -/
def c6Run : ℕ → Player × SwordHitbox
  | 0 => (Player.new, ⟨Vec2.zero⟩)
  | n + 1 => ((c6Run n).1).process c6Input (c6Delta n) ((c6Run n).2)

lemma c6_invariant (n : ℕ) :
    ((c6Run n).1).state = State.Move ∧
    70 + 10 * (1 / 2 : ℝ) ^ n ≤
      ((MAX_SPEED • get_movement_input 1 0 0 0) -
        ((c6Run n).1).velocity).length := by
  have hne : get_movement_input 1 0 0 0 ≠ Vec2.zero := by
    rw [get_movement_input_right]
    exact unit_ne_zero (Vec2.length_mk_unit 1 0 (by norm_num))
  induction n with
  | zero =>
    refine ⟨rfl, ?_⟩
    have htgt : (MAX_SPEED • get_movement_input 1 0 0 0) -
        ((c6Run 0).1).velocity = ⟨80, 0⟩ := by
      rw [get_movement_input_right]
      ext <;> simp [MAX_SPEED, c6Run, Player.new, Vec2.zero]
    rw [htgt, Vec2.length_x 80 (by norm_num)]
    norm_num
  | succ n ih =>
    obtain ⟨hstate, hdist⟩ := ih
    have hdpos : (0 : ℝ) < c6Delta n := by
      unfold c6Delta
      positivity
    refine ⟨process_state_move _ _ _ _ hstate rfl rfl, ?_⟩
    have h1 : (c6Run (n + 1)).1 =
        (((c6Run n).1).process c6Input (c6Delta n) ((c6Run n).2)).1 := rfl
    have hlaw : ((MAX_SPEED • get_movement_input 1 0 0 0) -
        ((c6Run (n + 1)).1).velocity).length =
        max 0 (((MAX_SPEED • get_movement_input 1 0 0 0) -
          ((c6Run n).1).velocity).length - ACCELERATION * c6Delta n) := by
      rw [h1, process_move_velocity _ _ _ _ hstate,
        show get_movement_input c6Input.right_strength c6Input.left_strength
          c6Input.down_strength c6Input.up_strength
          = get_movement_input 1 0 0 0 from rfl,
        move_on_input_velocity, if_neg hne]
      exact Vec2.length_moveTowards _ _ _
        (mul_nonneg (by norm_num [ACCELERATION]) hdpos.le)
    rw [hlaw]
    have hstep : ACCELERATION * c6Delta n = 5 * (1 / 2 : ℝ) ^ n := by
      unfold ACCELERATION c6Delta
      ring
    rw [hstep]
    calc (70 : ℝ) + 10 * (1 / 2) ^ (n + 1)
        = (70 + 10 * (1 / 2) ^ n) - 5 * (1 / 2) ^ n := by ring
      _ ≤ ((MAX_SPEED • get_movement_input 1 0 0 0) -
            ((c6Run n).1).velocity).length - 5 * (1 / 2) ^ n := by linarith
      _ ≤ max 0 (((MAX_SPEED • get_movement_input 1 0 0 0) -
            ((c6Run n).1).velocity).length - 5 * (1 / 2) ^ n) :=
          le_max_right _ _

/-- C6 counterexample: a run of Move-state frames under constant single-axis
input with all-positive deltas whose velocity never reaches the ± MAX_SPEED
axis target in any finite number of frames — the distance stays above 70. -/
theorem C6_counterexample :
    (∀ i : ℕ, 0 < c6Delta i) ∧
    singleAxisInput c6Input ∧
    Player.new.state = State.Move ∧
    (∀ n : ℕ, ((c6Run n).1).state = State.Move) ∧
    (∀ n : ℕ,
      ((MAX_SPEED • get_movement_input 1 0 0 0) -
        ((c6Run n).1).velocity).length ≠ 0 ∧
      ((c6Run n).1).velocity ≠ MAX_SPEED • get_movement_input 1 0 0 0) := by
  refine ⟨?_, Or.inl ⟨rfl, rfl, rfl, rfl⟩, rfl, fun n => (c6_invariant n).1, ?_⟩
  · intro i
    unfold c6Delta
    positivity
  · intro n
    have h := (c6_invariant n).2
    have hpow : (0 : ℝ) < (1 / 2) ^ n := by positivity
    constructor
    · intro h0
      rw [h0] at h
      linarith
    · intro heq
      have hz : (MAX_SPEED • get_movement_input 1 0 0 0) -
          ((c6Run n).1).velocity = Vec2.zero := by
        rw [heq]
        exact Vec2.sub_self _
      rw [hz, Vec2.length_zero] at h
      linarith

/-- Every host callback preserves a unit roll vector: only move_on_input ever
writes it, and only with the (nonzero, hence normalized) polled input. -/
lemma stepEvent_roll_vector_unit (p : Player) (e : Event)
    (h : p.roll_vector.length = 1) : ((p.stepEvent e).roll_vector).length = 1 := by
  cases e with
  | frame inp delta sh =>
    show (((p.process inp delta sh).1).roll_vector).length = 1
    obtain ⟨v, s, rv⟩ := p
    cases s
    · rw [process_move_roll_vector _ _ _ _ rfl, move_on_input_roll_vector]
      by_cases hz : get_movement_input inp.right_strength inp.left_strength
          inp.down_strength inp.up_strength = Vec2.zero
      · rw [if_pos hz]
        exact h
      · rw [if_neg hz]
        rcases get_movement_input_zero_or_unit inp.right_strength
          inp.left_strength inp.down_strength inp.up_strength with h0 | h1
        · exact absurd h0 hz
        · exact h1
    · exact h
    · exact h
  | physics mas =>
    obtain ⟨v, s, rv⟩ := p
    cases s <;> exact h
  | attackFinished => exact h
  | rollFinished => exact h

lemma runEvents_roll_vector_unit (es : List Event) :
    ∀ p : Player, p.roll_vector.length = 1 →
      ((p.runEvents es).roll_vector).length = 1 := by
  induction es with
  | nil => exact fun p h => h
  | cons e tl ih =>
    intro p h
    exact ih (p.stepEvent e) (stepEvent_roll_vector_unit p e h)

/-- C9: the roll vector starts as the unit down vector and stays a unit
vector under every sequence of host callbacks, so it is never zero and the
Roll-state velocity roll_vector × ROLL_SPEED is never zero either. -/
theorem C9_roll_vector_nonzero (es : List Event) :
    Player.new.roll_vector = Vec2.down ∧
    ((Player.new.runEvents es).roll_vector).length = 1 ∧
    (Player.new.runEvents es).roll_vector ≠ Vec2.zero ∧
    ROLL_SPEED • (Player.new.runEvents es).roll_vector ≠ Vec2.zero ∧
    ((Player.new.runEvents es).state = State.Roll →
      ∀ (inp : InputFrame) (delta : ℝ) (sh : SwordHitbox),
        (((Player.new.runEvents es).process inp delta sh).1).velocity
          ≠ Vec2.zero) := by
  have hdown : Player.new.roll_vector.length = 1 := by
    show Vec2.down.length = 1
    exact Vec2.length_mk_unit 0 1 (by norm_num)
  have hunit := runEvents_roll_vector_unit es Player.new hdown
  have hne : (Player.new.runEvents es).roll_vector ≠ Vec2.zero :=
    unit_ne_zero hunit
  have hsmul : ROLL_SPEED • (Player.new.runEvents es).roll_vector
      ≠ Vec2.zero := by
    intro h0
    have hlen := congrArg Vec2.length h0
    rw [Vec2.length_smul, hunit, Vec2.length_zero] at hlen
    norm_num [ROLL_SPEED] at hlen
  refine ⟨rfl, hunit, hne, hsmul, ?_⟩
  intro hroll inp delta sh
  rw [process_roll_eq _ _ _ _ hroll]
  exact hsmul
